import Mathlib

/-!
Verification of the asynchronous task-orchestration subsystem of the
Gemini-API server (`src/gemini_webapi/server/`): the webhook notifier
`call_webhook` and the task runner `process_task_and_notify` (app.py), the
`SessionStore` and the image acquisition pipeline (`_files_from_urls`,
`_serialize_images`) and the public-URL pass of `ImageEditingService._send`
(service.py), and the `TaskStore` contract.

The Python code is shallowly embedded: network calls become oracles
(functions from attempt index / URL to an outcome), `asyncio` concurrency
becomes an explicit completion order, the event loop's run-to-completion
semantics justify treating each non-awaiting code block as atomic, and
side effects (store writes, file writes, webhook POSTs) become explicit
event lists or state passing.
-/

/-! ## Webhook notifier: `call_webhook` (app.py, lines 45-79) -/

/-- app.py, constant `WEBHOOK_RETRY_ATTEMPTS = 3`. -/
def WEBHOOK_RETRY_ATTEMPTS : Nat := 3

/-- app.py, constant `WEBHOOK_RETRY_DELAY_SECONDS = 2` (the backoff base delay). -/
def WEBHOOK_RETRY_DELAY_SECONDS : Nat := 2

/-- Outcome of one POST attempt inside `call_webhook`: either an HTTP
response carrying a status code, or a transport-level failure (the
`except Exception` branch: connection error, timeout, ...). -/
inductive PostOutcome where
  | response (statusCode : Nat)
  | transportError
deriving DecidableEq, Repr

/-- app.py line 63: `if response.status_code < 400: return True`; any other
status code, and any raised exception, falls through to the retry logic. -/
def attemptSucceeds : PostOutcome → Bool
  | .response s => s < 400
  | .transportError => false

/-- Observable behaviour of one `call_webhook` run: the returned boolean,
the number of POST attempts actually performed, and the list of sleep
durations, in order. -/
structure WebhookTrace where
  result : Bool
  attempts : Nat
  sleeps : List Nat
deriving DecidableEq, Repr

/-- The `for attempt in range(max_retries)` loop of `call_webhook`,
starting from iteration `attempt`.  `post` is the network oracle giving
the outcome of the POST performed at each iteration.  Mirrors app.py
lines 55-79: on success return `True` immediately; on failure sleep
`WEBHOOK_RETRY_DELAY_SECONDS * 2 ** attempt` unless this was the last
iteration; after the loop return `False`. -/
def callWebhookAux (post : Nat → PostOutcome) (maxRetries : Nat) (attempt : Nat) :
    WebhookTrace :=
  if _h : attempt < maxRetries then
    if attemptSucceeds (post attempt) then
      ⟨true, 1, []⟩
    else
      let rest := callWebhookAux post maxRetries (attempt + 1)
      ⟨rest.result, rest.attempts + 1,
        (if attempt < maxRetries - 1 then [WEBHOOK_RETRY_DELAY_SECONDS * 2 ^ attempt] else [])
          ++ rest.sleeps⟩
  else
    ⟨false, 0, []⟩
termination_by maxRetries - attempt
decreasing_by omega

/-- app.py `call_webhook(webhook_url, payload, max_retries)`: run the retry
loop from iteration 0.  The URL and payload do not influence control flow
and are abstracted into the `post` oracle. -/
def call_webhook (post : Nat → PostOutcome) (maxRetries : Nat) : WebhookTrace :=
  callWebhookAux post maxRetries 0

/-- The expected backoff sequence: `d` sleeps of
`WEBHOOK_RETRY_DELAY_SECONDS * 2 ^ (a + t)` for `t = 0, ..., d-1`. -/
def backoffSleeps (a d : Nat) : List Nat :=
  (List.range d).map (fun t => WEBHOOK_RETRY_DELAY_SECONDS * 2 ^ (a + t))

theorem backoffSleeps_succ (a d : Nat) :
    backoffSleeps a (d + 1) =
      WEBHOOK_RETRY_DELAY_SECONDS * 2 ^ a :: backoffSleeps (a + 1) d := by
  unfold backoffSleeps
  rw [List.range_succ_eq_map, List.map_cons, List.map_map]
  refine congrArg₂ _ (by rw [Nat.add_zero]) ?_
  refine congrArg₂ _ (funext fun t => ?_) rfl
  rw [Function.comp_apply]
  refine congrArg _ (congrArg _ ?_)
  omega

theorem callWebhookAux_allFail (post : Nat → PostOutcome) (maxRetries : Nat) :
    ∀ d a, maxRetries - a = d →
      (∀ j, a ≤ j → j < maxRetries → attemptSucceeds (post j) = false) →
      callWebhookAux post maxRetries a = ⟨false, d, backoffSleeps a (d - 1)⟩ := by
  intro d
  induction d with
  | zero =>
    intro a hd _
    rw [callWebhookAux, dif_neg (by omega)]
    rfl
  | succ d ih =>
    intro a hd hfail
    have ha : a < maxRetries := by omega
    rw [callWebhookAux, dif_pos ha, hfail a (Nat.le_refl a) ha, if_neg (by simp),
      ih (a + 1) (by omega) (fun j h1 h2 => hfail j (by omega) h2)]
    cases d with
    | zero =>
      have : ¬ a < maxRetries - 1 := by omega
      simp [this, backoffSleeps]
    | succ e =>
      have : a < maxRetries - 1 := by omega
      simp only [this, if_pos, Nat.succ_sub_one, backoffSleeps_succ]
      rfl

theorem callWebhookAux_firstSuccess (post : Nat → PostOutcome) (maxRetries : Nat) :
    ∀ d a k, k - a = d → a ≤ k → k < maxRetries →
      attemptSucceeds (post k) = true →
      (∀ j, a ≤ j → j < k → attemptSucceeds (post j) = false) →
      callWebhookAux post maxRetries a = ⟨true, k + 1 - a, backoffSleeps a (k - a)⟩ := by
  intro d
  induction d with
  | zero =>
    intro a k hd hak hk hsucc _
    have hka : a = k := by omega
    subst hka
    rw [callWebhookAux, dif_pos hk, if_pos hsucc]
    have h1 : a + 1 - a = 1 := by omega
    have h2 : a - a = 0 := by omega
    rw [h1, h2]
    rfl
  | succ d ih =>
    intro a k hd hak hk hsucc hfail
    have ha : a < maxRetries := by omega
    have hlt : a < k := by omega
    rw [callWebhookAux, dif_pos ha, hfail a (Nat.le_refl a) hlt, if_neg (by simp),
      ih (a + 1) k (by omega) (by omega) hk hsucc
        (fun j h1 h2 => hfail j (by omega) h2)]
    have hsl : a < maxRetries - 1 := by omega
    have h1 : k + 1 - (a + 1) + 1 = k + 1 - a := by omega
    have h2 : k - a = k - (a + 1) + 1 := by omega
    simp only [hsl, if_pos, h1, h2, backoffSleeps_succ]
    rfl

/-- C1: for every call of `call_webhook`: if some attempt's POST yields a
response with status code < 400 (the first such being attempt `k`,
0-indexed), the call returns `true` immediately after `k + 1` attempts,
sleeping exactly after each of the `k` preceding failed attempts (backoff
`base * 2 ^ t` after the `t`-th attempt, 0-indexed — i.e. `base * 2 ^ (j-1)`
between 1-indexed attempts `j` and `j+1`) and never after the successful
attempt; if every attempt fails, it performs exactly `maxRetries` attempts,
sleeps `base * 2 ^ 0, base * 2 ^ 1, ...` between consecutive attempts (none
after the last), and returns `false` (the embedding is a total function:
nothing is raised). -/
theorem call_webhook_c1 (post : Nat → PostOutcome) (maxRetries : Nat) :
    (∀ k, k < maxRetries → attemptSucceeds (post k) = true →
      (∀ j, j < k → attemptSucceeds (post j) = false) →
      call_webhook post maxRetries = ⟨true, k + 1, backoffSleeps 0 k⟩) ∧
    ((∀ k, k < maxRetries → attemptSucceeds (post k) = false) →
      call_webhook post maxRetries = ⟨false, maxRetries, backoffSleeps 0 (maxRetries - 1)⟩) := by
  constructor
  · intro k hk hsucc hfail
    have := callWebhookAux_firstSuccess post maxRetries (k - 0) 0 k rfl (Nat.zero_le k) hk
      hsucc (fun j _ hj => hfail j hj)
    simpa [call_webhook] using this
  · intro hfail
    have := callWebhookAux_allFail post maxRetries (maxRetries - 0) 0 rfl
      (fun j _ hj => hfail j hj)
    simpa [call_webhook] using this

/-- Witness for C1: with the default `max_retries = 3`, a persistently
failing endpoint gives exactly 3 attempts, sleeps `2 = 2*2^0` then
`4 = 2*2^1`, and result `false`; a first-attempt success gives result
`true`, one attempt and no sleeps. -/
theorem call_webhook_c1_witness :
    call_webhook (fun _ => PostOutcome.transportError) WEBHOOK_RETRY_ATTEMPTS =
      ⟨false, 3, [2, 4]⟩ ∧
    call_webhook (fun _ => PostOutcome.response 200) WEBHOOK_RETRY_ATTEMPTS =
      ⟨true, 1, []⟩ := by
  constructor
  · exact ((call_webhook_c1 (fun _ => PostOutcome.transportError) WEBHOOK_RETRY_ATTEMPTS).2
      (fun k _ => rfl)).trans (by decide)
  · exact ((call_webhook_c1 (fun _ => PostOutcome.response 200) WEBHOOK_RETRY_ATTEMPTS).1
      0 (by decide) rfl (fun j hj => absurd hj (Nat.not_lt_zero j))).trans (by decide)

/-! ## Task runner: `process_task_and_notify` (app.py, lines 82-142) -/

/-- The recognized failure classes caught by the first `except` clause of
`process_task_and_notify` (app.py lines 117-118): `InvalidModelError`,
`HTTPError`, `APIError`, `ImageGenerationError`, `TimeoutError`,
`UsageLimitExceeded`, `TemporarilyBlocked`, `ModelInvalid`. -/
inductive FailureKind where
  | invalidModel
  | httpTransport
  | apiError
  | imageGeneration
  | timeoutKind
  | usageLimit
  | temporarilyBlocked
  | modelInvalid
deriving DecidableEq, Repr

/-- Outcome of the engine call `service.start_session(...)` made by the
task runner: success with a result (of abstract type `R`, standing for the
`ConversationResponse`), a recognized domain/transport failure carrying
`str(exc)`, or any other unexpected exception carrying `str(exc)`. -/
inductive EngineOutcome (R : Type) where
  | success (result : R)
  | recognizedFailure (kind : FailureKind) (message : String)
  | unexpectedFailure (message : String)
deriving DecidableEq, Repr

/-- The outbound webhook JSON body built by `process_task_and_notify`:
`{"task_id": ..., "status": ..., "result"?: ..., "error"?: ...}`.
`none` models an absent key. -/
structure WebhookPayload (R : Type) where
  task_id : String
  status : String
  result : Option R
  error : Option String
deriving DecidableEq, Repr

/-- Side effects of the task runner, in program order: a Task Store
`update_status(task_id, status, result=..., error=...)` call, or a
`call_webhook(url, payload)` hand-off. -/
inductive RunnerEvent (R : Type) where
  | storeUpdate (task_id status : String) (result : Option R) (error : Option String)
  | webhook (url : String) (payload : WebhookPayload R)
deriving DecidableEq, Repr

/-- app.py `process_task_and_notify`, as the ordered list of its side
effects.  The engine call is the failure point (everything the `try` block
awaits between the two `update_status` calls); each branch mirrors one
`try`/`except` arm: transition to `processing`, then on success commit
`completed` with the result and hand the completed payload to
`call_webhook`; on a recognized failure commit `failed` with
`error_message = str(exc)` and notify; on any other exception commit
`failed` with `error_message = "Unexpected error: " + str(exc)` and
notify.  The function is total: no branch re-raises. -/
def process_task_and_notify {R : Type} (taskId : String) (engine : EngineOutcome R)
    (webhookUrl : String) : List (RunnerEvent R) :=
  match engine with
  | .success r =>
      [RunnerEvent.storeUpdate taskId "processing" none none,
       RunnerEvent.storeUpdate taskId "completed" (some r) none,
       RunnerEvent.webhook webhookUrl ⟨taskId, "completed", some r, none⟩]
  | .recognizedFailure _ m =>
      [RunnerEvent.storeUpdate taskId "processing" none none,
       RunnerEvent.storeUpdate taskId "failed" none (some m),
       RunnerEvent.webhook webhookUrl ⟨taskId, "failed", none, some m⟩]
  | .unexpectedFailure m =>
      [RunnerEvent.storeUpdate taskId "processing" none none,
       RunnerEvent.storeUpdate taskId "failed" none (some ("Unexpected error: " ++ m)),
       RunnerEvent.webhook webhookUrl ⟨taskId, "failed", none, some ("Unexpected error: " ++ m)⟩]

/-- The error message each failing branch of `process_task_and_notify`
stores and notifies (`none` for the success branch). -/
def failureMessage {R : Type} : EngineOutcome R → Option String
  | .success _ => none
  | .recognizedFailure _ m => some m
  | .unexpectedFailure m => some ("Unexpected error: " ++ m)

/-- The statuses a task's store record receives over its lifetime:
`"pending"` at creation (app.py line 211, `TaskData(status="pending", ...)`
committed by `task_store.create`) followed by the statuses written by the
runner's `update_status` calls. -/
def taskStatusTrace {R : Type} (taskId : String) (engine : EngineOutcome R)
    (url : String) : List String :=
  "pending" :: (process_task_and_notify taskId engine url).filterMap
    (fun e => match e with
      | RunnerEvent.storeUpdate _ s _ _ => some s
      | RunnerEvent.webhook _ _ => none)

/-- C2: on every run of the task runner, whatever the engine outcome,
exactly one webhook hand-off occurs; its payload carries the task id, a
terminal status (`"completed"` with the result present and no error, or
`"failed"` with an error string and no result), and the hand-off is the
last event, strictly after the store commit of that same terminal status
(with the same result/error fields). -/
theorem process_task_c2 {R : Type} (taskId url : String) (engine : EngineOutcome R) :
    ∃ st res err,
      (st = "completed" ∨ st = "failed") ∧
      (st = "completed" ↔ ∃ r, res = some r) ∧
      (st = "failed" ↔ ∃ e, err = some e) ∧
      process_task_and_notify taskId engine url =
        [RunnerEvent.storeUpdate taskId "processing" none none,
         RunnerEvent.storeUpdate taskId st res err,
         RunnerEvent.webhook url ⟨taskId, st, res, err⟩] := by
  cases engine with
  | success r =>
    exact ⟨"completed", some r, none,
      Or.inl rfl, ⟨fun _ => ⟨r, rfl⟩, fun _ => rfl⟩,
      ⟨fun h => absurd h (by decide), fun h => absurd h (fun ⟨e, he⟩ => Option.noConfusion he)⟩,
      rfl⟩
  | recognizedFailure k m =>
    exact ⟨"failed", none, some m,
      Or.inr rfl, ⟨fun h => absurd h (by decide), fun h => absurd h (fun ⟨r, hr⟩ => Option.noConfusion hr)⟩,
      ⟨fun _ => ⟨m, rfl⟩, fun _ => rfl⟩,
      rfl⟩
  | unexpectedFailure m =>
    exact ⟨"failed", none, some ("Unexpected error: " ++ m),
      Or.inr rfl, ⟨fun h => absurd h (by decide), fun h => absurd h (fun ⟨r, hr⟩ => Option.noConfusion hr)⟩,
      ⟨fun _ => ⟨_, rfl⟩, fun _ => rfl⟩,
      rfl⟩

/-- C3: the sequence of statuses written for a task over its lifetime is
exactly `pending, processing, t` with `t` one of the two terminal statuses:
`processing` is observed before any terminal status, exactly one terminal
status is ever written, and nothing follows it. -/
theorem task_status_trace_c3 {R : Type} (taskId url : String) (engine : EngineOutcome R) :
    ∃ t, (t = "completed" ∨ t = "failed") ∧
      taskStatusTrace taskId engine url = ["pending", "processing", t] := by
  cases engine with
  | success r => exact ⟨"completed", Or.inl rfl, rfl⟩
  | recognizedFailure k m => exact ⟨"failed", Or.inr rfl, rfl⟩
  | unexpectedFailure m => exact ⟨"failed", Or.inr rfl, rfl⟩

/-! ## Session store: `SessionStore` (service.py, lines 31-68)

Python objects alias: `SessionData.metadata` is a mutable `list`, so the
store is modelled against an explicit heap of metadata lists.  A
`SessionData` record holds the heap address of its list; `list(...)` in the
source becomes a fresh allocation copying the contents. -/

/-- `metadata: list[str | None]` — the contents of one metadata list. -/
abbrev MetadataList := List (Option String)

/-- A heap of metadata list objects; the address of a cell is its index,
and allocation appends. -/
structure Heap where
  cells : List MetadataList
deriving DecidableEq, Repr

/-- Dereference an address (out-of-range reads never occur in well-formed
states; they default to `[]`). -/
def Heap.read (h : Heap) (a : Nat) : MetadataList :=
  h.cells.getD a []

/-- Mutate the list object at address `a` in place (what a caller mutating
a returned `metadata` list does). -/
def Heap.write (h : Heap) (a : Nat) (v : MetadataList) : Heap :=
  ⟨h.cells.set a v⟩

/-- Allocate a fresh list object (`list(...)` in the source) and return its
address. -/
def Heap.alloc (h : Heap) (v : MetadataList) : Heap × Nat :=
  (⟨h.cells ++ [v]⟩, h.cells.length)

/-- service.py `SessionData`: `metadata` is the address of its list object;
timestamps are abstract clock readings. -/
structure SessionData where
  metadata : Nat
  model : String
  gem : Option String
  created_at : Nat
  updated_at : Nat
deriving DecidableEq, Repr

/-- service.py `SessionNotFoundError(session_id)`. -/
structure SessionNotFoundError where
  id : String
deriving DecidableEq, Repr

/-- The `self._sessions: dict[str, SessionData]` map (all operations
serialize through `self._lock`, so each operation acts atomically on this
state). -/
structure SessionStore where
  sessions : List (String × SessionData)
deriving DecidableEq, Repr

/-- Dictionary lookup (`m[k]` / `k in m`) on an association-list model of a
Python `dict`. -/
def lookupId {κ β : Type} [DecidableEq κ] : List (κ × β) → κ → Option β
  | [], _ => none
  | p :: rest, id => if p.1 = id then some p.2 else lookupId rest id

/-- Replace the binding of `id` (dict item assignment on a present key). -/
def replaceId {κ β : Type} [DecidableEq κ] : List (κ × β) → κ → β → List (κ × β)
  | [], _, _ => []
  | p :: rest, id, d => if p.1 = id then (id, d) :: rest else p :: replaceId rest id d

/-- service.py `SessionStore.create`: `self._sessions[session_id] = data`
(the data object is stored by reference, no copy). -/
def SessionStore.create (s : SessionStore) (id : String) (d : SessionData) : SessionStore :=
  match lookupId s.sessions id with
  | some _ => ⟨replaceId s.sessions id d⟩
  | none => ⟨(id, d) :: s.sessions⟩

/-- service.py `SessionStore.get`: raise `SessionNotFoundError(session_id)`
if absent, else return a freshly constructed `SessionData` whose metadata
is `list(data.metadata)` — a newly allocated list object with the same
contents — and whose scalar fields are shared. -/
def SessionStore.get (s : SessionStore) (h : Heap) (id : String) :
    Except SessionNotFoundError (SessionData × Heap) :=
  match lookupId s.sessions id with
  | none => Except.error ⟨id⟩
  | some d =>
      let ha := h.alloc (h.read d.metadata)
      Except.ok (⟨ha.2, d.model, d.gem, d.created_at, d.updated_at⟩, ha.1)

/-- service.py `SessionStore.update_metadata`: raise if absent, else
`stored.metadata = list(metadata)` (fresh allocation holding `m`) and
`stored.updated_at = datetime.utcnow()` (the clock reading is passed as
`now`). -/
def SessionStore.update_metadata (s : SessionStore) (h : Heap) (id : String)
    (m : MetadataList) (now : Nat) :
    Except SessionNotFoundError (SessionStore × Heap) :=
  match lookupId s.sessions id with
  | none => Except.error ⟨id⟩
  | some d =>
      let ha := h.alloc m
      Except.ok (⟨replaceId s.sessions id ⟨ha.2, d.model, d.gem, d.created_at, now⟩⟩, ha.1)

/-- Well-formed state: every metadata address stored in the map points at
an allocated heap cell. -/
def SessionWF (s : SessionStore) (h : Heap) : Prop :=
  ∀ p ∈ s.sessions, p.2.metadata < h.cells.length

instance (s : SessionStore) (h : Heap) : Decidable (SessionWF s h) :=
  inferInstanceAs (Decidable (∀ p ∈ s.sessions, p.2.metadata < h.cells.length))

/-- The metadata contents a reader observes for `id`: what `get` returns,
dereferenced in the heap `get` leaves behind. -/
def gotMetadata (s : SessionStore) (h : Heap) (id : String) : Option MetadataList :=
  match s.get h id with
  | Except.error _ => none
  | Except.ok (d, h') => some (h'.read d.metadata)

theorem Heap.read_alloc_new (h : Heap) (v : MetadataList) :
    (h.alloc v).1.read (h.alloc v).2 = v := by
  unfold Heap.alloc Heap.read
  simp

theorem Heap.read_alloc_old (h : Heap) (v : MetadataList) (a : Nat)
    (ha : a < h.cells.length) : (h.alloc v).1.read a = h.read a := by
  unfold Heap.alloc Heap.read
  simp [List.getD, List.getElem?_append_left ha]

theorem Heap.read_write_ne (h : Heap) (a b : Nat) (v : MetadataList) (hab : a ≠ b) :
    (h.write b v).read a = h.read a := by
  unfold Heap.write Heap.read
  simp [List.getD, List.getElem?_set_ne (Ne.symm hab)]

theorem lookupId_replaceId_self {κ β : Type} [DecidableEq κ] (l : List (κ × β)) (id : κ)
    (d : β) (hmem : (lookupId l id).isSome) :
    lookupId (replaceId l id d) id = some d := by
  induction l with
  | nil => simp [lookupId] at hmem
  | cons p rest ih =>
    by_cases hp : p.1 = id
    · simp [replaceId, lookupId, hp]
    · simp only [lookupId, replaceId, hp, if_neg, if_false] at hmem ⊢
      exact ih hmem

theorem lookupId_replaceId_other {κ β : Type} [DecidableEq κ] (l : List (κ × β)) (id id' : κ)
    (d : β) (hne : id' ≠ id) :
    lookupId (replaceId l id d) id' = lookupId l id' := by
  induction l with
  | nil => rfl
  | cons p rest ih =>
    by_cases hp : p.1 = id
    · simp [replaceId, lookupId, hp, Ne.symm hne]
    · simp only [replaceId, hp, if_false, lookupId]
      by_cases hp' : p.1 = id'
      · simp [hp']
      · simp [hp', ih]

theorem gotMetadata_eq (s : SessionStore) (h : Heap) (id : String) :
    gotMetadata s h id = (lookupId s.sessions id).map (fun d => h.read d.metadata) := by
  unfold gotMetadata SessionStore.get
  cases hl : lookupId s.sessions id with
  | none => rfl
  | some d => simp [Heap.read_alloc_new]

theorem lookupId_mem {κ β : Type} [DecidableEq κ] (l : List (κ × β)) (id : κ) (d : β)
    (h : lookupId l id = some d) : (id, d) ∈ l := by
  induction l with
  | nil => simp [lookupId] at h
  | cons p rest ih =>
    by_cases hp : p.1 = id
    · simp only [lookupId, hp, if_pos] at h
      obtain ⟨h1, h2⟩ := Prod.mk.injEq .. ▸ (show p = (id, d) from by
        cases p; cases h; cases hp; rfl)
      simp [show p = (id, d) from by cases p; cases h; cases hp; rfl]
    · simp only [lookupId, hp, if_neg, if_false] at h
      exact List.mem_cons_of_mem p (ih h)

theorem lookupId_create_self (s : SessionStore) (id : String) (d : SessionData) :
    lookupId (s.create id d).sessions id = some d := by
  unfold SessionStore.create
  cases hl : lookupId s.sessions id with
  | none => simp [lookupId]
  | some d0 => exact lookupId_replaceId_self s.sessions id d (by rw [hl]; rfl)

/-- C6: for the Session Store — (a) after `create(id, data)`, an immediate
`get(id)` observes metadata contents equal to the stored data's metadata
contents; (b) `get` on an id not present fails with
`SessionNotFound(id)`; (c) the value `get` returns is an independent copy
of internal storage: mutating the returned metadata list (a heap write at
the returned address) leaves the result of every subsequent `get`, on any
id, unchanged. -/
theorem session_store_c6 :
    (∀ (s : SessionStore) (h : Heap) (id : String) (d : SessionData),
      gotMetadata (s.create id d) h id = some (h.read d.metadata)) ∧
    (∀ (s : SessionStore) (h : Heap) (id : String),
      lookupId s.sessions id = none → s.get h id = Except.error ⟨id⟩) ∧
    (∀ (s : SessionStore) (h : Heap) (id : String) (d' : SessionData) (h' : Heap),
      SessionWF s h → s.get h id = Except.ok (d', h') →
      ∀ (v : MetadataList) (id' : String),
        gotMetadata s (h'.write d'.metadata v) id' = gotMetadata s h' id') := by
  refine ⟨?_, ?_, ?_⟩
  · intro s h id d
    rw [gotMetadata_eq, lookupId_create_self]
    rfl
  · intro s h id hl
    unfold SessionStore.get
    rw [hl]
  · intro s h id d' h' hwf hget v id'
    unfold SessionStore.get at hget
    cases hl : lookupId s.sessions id with
    | none => rw [hl] at hget; exact Except.noConfusion hget
    | some d0 =>
      rw [hl] at hget
      have hd' : d' = ⟨h.cells.length, d0.model, d0.gem, d0.created_at, d0.updated_at⟩ :=
        (congrArg Prod.fst (Except.ok.inj hget)).symm
      cases hl' : lookupId s.sessions id' with
      | none => rw [gotMetadata_eq, gotMetadata_eq, hl']; rfl
      | some d1 =>
        rw [gotMetadata_eq, gotMetadata_eq, hl']
        have hmem := lookupId_mem s.sessions id' d1 hl'
        have hlt : d1.metadata < h.cells.length := hwf (id', d1) hmem
        have hne : d1.metadata ≠ d'.metadata := by
          rw [hd']; exact Nat.ne_of_lt hlt
        exact congrArg some (Heap.read_write_ne h' d1.metadata d'.metadata v hne)

/-- Witness for C6 at concrete inputs: a store holding one session whose
metadata list lives at heap address 0; `get` hands back a copy at fresh
address 1, and writing through that copy does not change what a later
`get` observes. -/
theorem session_store_c6_witness :
    gotMetadata
        (SessionStore.create ⟨[]⟩ "sid" ⟨0, "gemini-pro", none, 5, 5⟩)
        ⟨[[some "c", some "r", some "k"]]⟩ "sid" =
      some [some "c", some "r", some "k"] ∧
    SessionStore.get ⟨[]⟩ ⟨[[some "c", some "r", some "k"]]⟩ "missing" =
      Except.error ⟨"missing"⟩ ∧
    gotMetadata ⟨[("sid", ⟨0, "gemini-pro", none, 5, 5⟩)]⟩
        (Heap.write ⟨[[some "c", some "r", some "k"], [some "c", some "r", some "k"]]⟩ 1 [none])
        "sid" =
      gotMetadata ⟨[("sid", ⟨0, "gemini-pro", none, 5, 5⟩)]⟩
        ⟨[[some "c", some "r", some "k"], [some "c", some "r", some "k"]]⟩ "sid" := by
  refine ⟨?_, ?_, ?_⟩
  · exact (session_store_c6.1 ⟨[]⟩ ⟨[[some "c", some "r", some "k"]]⟩ "sid"
      ⟨0, "gemini-pro", none, 5, 5⟩).trans (by decide)
  · exact session_store_c6.2.1 ⟨[]⟩ ⟨[[some "c", some "r", some "k"]]⟩ "missing" rfl
  · exact session_store_c6.2.2 ⟨[("sid", ⟨0, "gemini-pro", none, 5, 5⟩)]⟩
      ⟨[[some "c", some "r", some "k"]]⟩ "sid" ⟨1, "gemini-pro", none, 5, 5⟩
      ⟨[[some "c", some "r", some "k"], [some "c", some "r", some "k"]]⟩
      (by decide) rfl [none] "sid"

/-- C7: `update_metadata(id, m)` on a present id replaces the stored
metadata wholesale with `m` (a fresh list holding exactly `m`), sets
`updated_at` to the current clock reading `now`, and leaves the session's
`model`, `gem`, `created_at` and every other session (binding and metadata
contents) unchanged; on an absent id it fails with `SessionNotFound(id)`
and (returning no new state) leaves the store unchanged. -/
theorem session_store_c7 :
    (∀ (s : SessionStore) (h : Heap) (id : String) (m : MetadataList) (now : Nat)
        (d : SessionData), lookupId s.sessions id = some d →
      ∃ s' h' a,
        s.update_metadata h id m now = Except.ok (s', h') ∧
        lookupId s'.sessions id = some ⟨a, d.model, d.gem, d.created_at, now⟩ ∧
        h'.read a = m ∧
        (∀ id', id' ≠ id → lookupId s'.sessions id' = lookupId s.sessions id') ∧
        (SessionWF s h → ∀ id' d1, lookupId s.sessions id' = some d1 →
          h'.read d1.metadata = h.read d1.metadata)) ∧
    (∀ (s : SessionStore) (h : Heap) (id : String) (m : MetadataList) (now : Nat),
      lookupId s.sessions id = none →
      s.update_metadata h id m now = Except.error ⟨id⟩) := by
  constructor
  · intro s h id m now d hl
    refine ⟨⟨replaceId s.sessions id ⟨h.cells.length, d.model, d.gem, d.created_at, now⟩⟩,
      (h.alloc m).1, h.cells.length, ?_, ?_, ?_, ?_, ?_⟩
    · unfold SessionStore.update_metadata
      rw [hl]
      exact rfl
    · exact lookupId_replaceId_self s.sessions id _ (by rw [hl]; exact rfl)
    · exact Heap.read_alloc_new h m
    · intro id' hne
      exact lookupId_replaceId_other s.sessions id id' _ hne
    · intro hwf id' d1 hl'
      exact Heap.read_alloc_old h m d1.metadata (hwf (id', d1) (lookupId_mem s.sessions id' d1 hl'))
  · intro s h id m now hl
    unfold SessionStore.update_metadata
    rw [hl]

/-- Witness for C7 at concrete inputs: updating the only session replaces
its metadata, stamps `updated_at := 9`, keeps the other fields, and an
unknown id fails with the typed error. -/
theorem session_store_c7_witness :
    (∃ s' h' a,
      SessionStore.update_metadata ⟨[("sid", ⟨0, "gemini-pro", none, 5, 5⟩)]⟩
          ⟨[[some "c", some "r", some "k"]]⟩ "sid" [some "c2", none, none] 9 =
        Except.ok (s', h') ∧
      lookupId s'.sessions "sid" = some ⟨a, "gemini-pro", none, 5, 9⟩ ∧
      h'.read a = [some "c2", none, none] ∧
      (∀ id', id' ≠ "sid" →
        lookupId s'.sessions id' =
          lookupId (⟨[("sid", ⟨0, "gemini-pro", none, 5, 5⟩)]⟩ : SessionStore).sessions id') ∧
      (SessionWF ⟨[("sid", ⟨0, "gemini-pro", none, 5, 5⟩)]⟩ ⟨[[some "c", some "r", some "k"]]⟩ →
        ∀ id' d1,
          lookupId (⟨[("sid", ⟨0, "gemini-pro", none, 5, 5⟩)]⟩ : SessionStore).sessions id' =
            some d1 →
          h'.read d1.metadata =
            Heap.read ⟨[[some "c", some "r", some "k"]]⟩ d1.metadata)) ∧
    SessionStore.update_metadata ⟨[("sid", ⟨0, "gemini-pro", none, 5, 5⟩)]⟩
        ⟨[[some "c", some "r", some "k"]]⟩ "missing" [none, none, none] 9 =
      Except.error ⟨"missing"⟩ := by
  constructor
  · exact session_store_c7.1 ⟨[("sid", ⟨0, "gemini-pro", none, 5, 5⟩)]⟩
      ⟨[[some "c", some "r", some "k"]]⟩ "sid" [some "c2", none, none] 9
      ⟨0, "gemini-pro", none, 5, 5⟩ rfl
  · exact session_store_c7.2 ⟨[("sid", ⟨0, "gemini-pro", none, 5, 5⟩)]⟩
      ⟨[[some "c", some "r", some "k"]]⟩ "missing" [none, none, none] 9 rfl

/-! ## C4: failure conversion in the task runner -/

/-- Counterexample to C4 as stated: the claim's parenthetical says the
unexpected-failure message "does not leak the underlying cause verbatim",
but app.py line 132 builds `error_message = f"Unexpected error: {exc}"`:
at the concrete input below, the committed `failed` status and the webhook
payload carry a message that contains the underlying cause
`"secret cause"` verbatim (as a contiguous substring). -/
theorem process_task_c4_counterexample :
    (process_task_and_notify "t1"
        (EngineOutcome.unexpectedFailure "secret cause" : EngineOutcome Unit) "cb")[1]? =
      some (RunnerEvent.storeUpdate "t1" "failed" none
        (some "Unexpected error: secret cause")) ∧
    (process_task_and_notify "t1"
        (EngineOutcome.unexpectedFailure "secret cause" : EngineOutcome Unit) "cb")[2]? =
      some (RunnerEvent.webhook "cb"
        ⟨"t1", "failed", none, some "Unexpected error: secret cause"⟩) ∧
    "secret cause".toList <:+: "Unexpected error: secret cause".toList :=
  ⟨rfl, rfl, by decide⟩

/-- C4 (amended): every failure arising inside the task runner's unit of
work — recognized domain/transport failures and any other unexpected
exception — is caught there and converted into a terminal `failed` status;
recognized failures store `str(exc)` as a descriptive message, and
unexpected failures store `"Unexpected error: " ++ str(exc)`, i.e. a
message with a generic marker prefix that nevertheless includes the
underlying cause's string verbatim.  No exception propagates out of the
unit of work: the embedding is a total function on every outcome. -/
theorem process_task_c4 {R : Type} (taskId url : String) (engine : EngineOutcome R)
    (h : ∀ r, engine ≠ EngineOutcome.success r) :
    ∃ msg, failureMessage engine = some msg ∧
      process_task_and_notify taskId engine url =
        [RunnerEvent.storeUpdate taskId "processing" none none,
         RunnerEvent.storeUpdate taskId "failed" none (some msg),
         RunnerEvent.webhook url ⟨taskId, "failed", none, some msg⟩] := by
  cases engine with
  | success r => exact absurd rfl (h r)
  | recognizedFailure k m => exact ⟨m, rfl, rfl⟩
  | unexpectedFailure m => exact ⟨"Unexpected error: " ++ m, rfl, rfl⟩

/-- Witness for the amended C4 at a concrete recognized failure. -/
theorem process_task_c4_witness :
    ∃ msg,
      failureMessage
          (EngineOutcome.recognizedFailure FailureKind.usageLimit "quota exceeded" :
            EngineOutcome Unit) = some msg ∧
      process_task_and_notify "t2"
          (EngineOutcome.recognizedFailure FailureKind.usageLimit "quota exceeded" :
            EngineOutcome Unit) "cb" =
        [RunnerEvent.storeUpdate "t2" "processing" none none,
         RunnerEvent.storeUpdate "t2" "failed" none (some msg),
         RunnerEvent.webhook "cb" ⟨"t2", "failed", none, some msg⟩] :=
  process_task_c4 "t2" "cb"
    (EngineOutcome.recognizedFailure FailureKind.usageLimit "quota exceeded")
    (fun _ hr => EngineOutcome.noConfusion hr)

/-! ## Public URL computation: `ImageEditingService._send` (service.py, lines 234-251) -/

/-- A filesystem path as its `pathlib.Path` components. -/
abbrev PathParts := List String

/-- `PurePath.as_posix()` of a relative path given by its components:
joined with "/"; the empty relative path (`p.relative_to(p)`) prints
as ".". -/
def asPosix (parts : PathParts) : String :=
  if parts.isEmpty then "." else String.intercalate "/" parts

/-- `Path.relative_to(dir)`: succeeds iff `dir`'s components lead the
path's components, returning the remainder; otherwise raises `ValueError`
(modelled as `none`). -/
def relativeTo (p dir : PathParts) : Option PathParts :=
  if dir <+: p then some (p.drop dir.length) else none

/-- `Path.name`: the last component (empty for a bare root). -/
def pathName (p : PathParts) : String := p.getLastD ""

/-- An image payload as the URL pass of `_send` sees it: its `path` field,
parsed into components, and its `url` field (`None` before the pass). -/
structure UrlPayload where
  path : PathParts
  url : Option String
deriving DecidableEq, Repr

/-- service.py lines 234-251, one payload: with a configured base URL `b`
(already `rstrip("/")`-ed by the service constructor) the url is
`f"{b}/{relative.as_posix()}"`, or `f"{b}/{absolute_path.name}"` when
`relative_to` raises `ValueError`; with no base URL configured the same
with the static-mount prefix `"/images/"`. -/
def assignUrl (baseUrl : Option String) (outputDir : PathParts) (p : PathParts) : String :=
  match baseUrl with
  | some b =>
      match relativeTo p outputDir with
      | some rel => b ++ "/" ++ asPosix rel
      | none => b ++ "/" ++ pathName p
  | none =>
      match relativeTo p outputDir with
      | some rel => "/images/" ++ asPosix rel
      | none => "/images/" ++ pathName p

/-- The `for image in images` loop of `_send`: set every payload's `url`
field in place. -/
def sendUrlPass (baseUrl : Option String) (outputDir : PathParts)
    (images : List UrlPayload) : List UrlPayload :=
  images.map (fun im => ⟨im.path, some (assignUrl baseUrl outputDir im.path)⟩)

/-- The URL rule as the specification words it: the base URL when
configured, else the default static-mount prefix `/images`, joined with
the path relative to the output directory, or with the bare filename when
the path is not under the output directory. -/
def specUrl (baseUrl : Option String) (outputDir p : PathParts) : String :=
  let pre := match baseUrl with
    | some b => b
    | none => "/images"
  match relativeTo p outputDir with
  | some rel => pre ++ "/" ++ asPosix rel
  | none => pre ++ "/" ++ pathName p

/-- C8: after the URL pass of `_send`, every persisted image payload's
public `url` is exactly the spec's rule — base URL (when configured) or
the default static-mount prefix `/images`, joined with the path relative
to the output directory, falling back to the bare filename when the path
is not under the output directory — and the pass changes nothing else
(paths, count and order are preserved). -/
theorem send_url_pass_c8 (baseUrl : Option String) (outputDir : PathParts)
    (images : List UrlPayload) :
    (sendUrlPass baseUrl outputDir images).map UrlPayload.url =
      images.map (fun im => some (specUrl baseUrl outputDir im.path)) ∧
    (sendUrlPass baseUrl outputDir images).map UrlPayload.path =
      images.map UrlPayload.path := by
  constructor
  · unfold sendUrlPass
    rw [List.map_map]
    refine congrArg₂ _ (funext fun im => ?_) rfl
    show some (assignUrl baseUrl outputDir im.path) = some (specUrl baseUrl outputDir im.path)
    cases baseUrl with
    | none =>
      unfold assignUrl specUrl
      cases relativeTo im.path outputDir <;> rfl
    | some b =>
      unfold assignUrl specUrl
      cases relativeTo im.path outputDir <;> rfl
  · unfold sendUrlPass
    rw [List.map_map]
    rfl

/-! ## Task store: `TaskStore` (spec.md §4.2) -/

/-- Modelled from the spec: `TaskData` is imported by app.py from
`.service` (app.py line 36) but its definition is absent from the
sources. Per spec.md §3 "Task": status; immutable request snapshot (an
abstract type `Q`); webhook_url; `result` present iff completed (abstract
type `R`); `error` present iff failed; timestamps. -/
structure TaskData (Q R : Type) where
  status : String
  request : Q
  webhook_url : String
  result : Option R
  error : Option String
  created_at : Nat
  updated_at : Nat
deriving DecidableEq, Repr

/-- Modelled from the spec: `TaskNotFoundError(task_id)` — `get` /
`update_status` on an unknown id fail with `TaskNotFound(id)`
(spec.md §4.2). -/
structure TaskNotFoundError where
  id : String
deriving DecidableEq, Repr

/-- Modelled from the spec: the task map of `TaskStore` (absent from the
sources; same single-mutex discipline as the Session Store per §4.2, so
each operation acts atomically on this state). -/
structure TaskStore (Q R : Type) where
  tasks : List (String × TaskData Q R)
deriving DecidableEq, Repr

/-- Modelled from the spec: `create(id, data)` inserts a new task with the
caller-supplied initial status (spec.md §4.2). -/
def TaskStore.create {Q R : Type} (s : TaskStore Q R) (id : String) (d : TaskData Q R) :
    TaskStore Q R :=
  match lookupId s.tasks id with
  | some _ => ⟨replaceId s.tasks id d⟩
  | none => ⟨(id, d) :: s.tasks⟩

/-- Modelled from the spec: `get(id)` returns a deep copy — the identity on
the immutable values of this pure model — or fails with `TaskNotFound(id)`
(spec.md §4.2). -/
def TaskStore.get {Q R : Type} (s : TaskStore Q R) (id : String) :
    Except TaskNotFoundError (TaskData Q R) :=
  match lookupId s.tasks id with
  | none => Except.error ⟨id⟩
  | some d => Except.ok d

/-- Modelled from the spec: `update_status(id, status, result=None,
error=None)` sets the status plus whichever optional field was supplied
and bumps `updated_at` (the clock reading is passed as `now`), failing
with `TaskNotFound(id)` if absent (spec.md §4.2). -/
def TaskStore.update_status {Q R : Type} (s : TaskStore Q R) (id : String) (status : String)
    (result : Option R) (error : Option String) (now : Nat) :
    Except TaskNotFoundError (TaskStore Q R) :=
  match lookupId s.tasks id with
  | none => Except.error ⟨id⟩
  | some d =>
      Except.ok ⟨replaceId s.tasks id
        ⟨status, d.request, d.webhook_url,
         (match result with
           | some r => some r
           | none => d.result),
         (match error with
           | some e => some e
           | none => d.error),
         d.created_at, now⟩⟩

/-- C9: the Task Store contract — `create(id, data)` inserts a task with
the caller-supplied initial status (an immediate `get` returns it);
`get(id)` on an unknown id fails with `TaskNotFound(id)`;
`update_status(id, status, result, error)` on a present id sets the status
and whichever optional field was supplied, bumps `updated_at` to the
current clock reading, and preserves the request snapshot, webhook url and
`created_at`; on an unknown id it fails with `TaskNotFound(id)`. -/
theorem task_store_c9 {Q R : Type} :
    (∀ (s : TaskStore Q R) (id : String) (d : TaskData Q R),
      (s.create id d).get id = Except.ok d) ∧
    (∀ (s : TaskStore Q R) (id : String),
      lookupId s.tasks id = none → s.get id = Except.error ⟨id⟩) ∧
    (∀ (s : TaskStore Q R) (id status : String) (result : Option R)
        (error : Option String) (now : Nat) (d : TaskData Q R),
      lookupId s.tasks id = some d →
      ∃ s', s.update_status id status result error now = Except.ok s' ∧
        lookupId s'.tasks id = some
          ⟨status, d.request, d.webhook_url,
           (match result with
             | some r => some r
             | none => d.result),
           (match error with
             | some e => some e
             | none => d.error),
           d.created_at, now⟩) ∧
    (∀ (s : TaskStore Q R) (id status : String) (result : Option R)
        (error : Option String) (now : Nat),
      lookupId s.tasks id = none →
      s.update_status id status result error now = Except.error ⟨id⟩) := by
  refine ⟨?_, ?_, ?_, ?_⟩
  · intro s id d
    unfold TaskStore.get TaskStore.create
    cases hl : lookupId s.tasks id with
    | none => simp [lookupId]
    | some d0 =>
      rw [lookupId_replaceId_self s.tasks id d (by rw [hl]; exact rfl)]
  · intro s id hl
    unfold TaskStore.get
    rw [hl]
  · intro s id status result error now d hl
    refine ⟨⟨replaceId s.tasks id
      ⟨status, d.request, d.webhook_url,
       (match result with
         | some r => some r
         | none => d.result),
       (match error with
         | some e => some e
         | none => d.error),
       d.created_at, now⟩⟩, ?_, ?_⟩
    · unfold TaskStore.update_status
      rw [hl]
    · exact lookupId_replaceId_self s.tasks id _ (by rw [hl]; exact rfl)
  · intro s id status result error now hl
    unfold TaskStore.update_status
    rw [hl]

/-- Witness for C9 at concrete inputs (`Q = R = String`): create/get
roundtrip, get on an unknown id, update_status on the present id (setting
`completed` with a result) and on an unknown id. -/
theorem task_store_c9_witness :
    (TaskStore.create (⟨[]⟩ : TaskStore String String) "tid"
        ⟨"pending", "req", "http://cb", none, none, 3, 3⟩).get "tid" =
      Except.ok ⟨"pending", "req", "http://cb", none, none, 3, 3⟩ ∧
    TaskStore.get (⟨[]⟩ : TaskStore String String) "nope" = Except.error ⟨"nope"⟩ ∧
    (∃ s', TaskStore.update_status
        (⟨[("tid", ⟨"processing", "req", "http://cb", none, none, 3, 4⟩)]⟩ :
          TaskStore String String)
        "tid" "completed" (some "res") none 7 = Except.ok s' ∧
      lookupId s'.tasks "tid" = some
        ⟨"completed", "req", "http://cb", some "res", none, 3, 7⟩) ∧
    TaskStore.update_status (⟨[]⟩ : TaskStore String String) "nope" "failed" none
        (some "boom") 7 =
      Except.error ⟨"nope"⟩ := by
  refine ⟨?_, ?_, ?_, ?_⟩
  · exact task_store_c9.1 ⟨[]⟩ "tid" ⟨"pending", "req", "http://cb", none, none, 3, 3⟩
  · exact task_store_c9.2.1 ⟨[]⟩ "nope" rfl
  · exact task_store_c9.2.2.1
      ⟨[("tid", ⟨"processing", "req", "http://cb", none, none, 3, 4⟩)]⟩
      "tid" "completed" (some "res") none 7
      ⟨"processing", "req", "http://cb", none, none, 3, 4⟩ rfl
  · exact task_store_c9.2.2.2 ⟨[]⟩ "nope" "failed" none (some "boom") 7 rfl

/-! ## Output persistence: `_serialize_images` (service.py, lines 108-141) -/

/-- The standard base64 alphabet used by Python's `base64.b64encode`. -/
def b64Alphabet : List Char :=
  "ABCDEFGHIJKLMNOPQRSTUVWXYZabcdefghijklmnopqrstuvwxyz0123456789+/".toList

def b64Char (n : Nat) : Char := b64Alphabet.getD n '?'

/-- `base64.b64encode` on a byte string (bytes as `Nat` values < 256):
3-byte groups become 4 alphabet characters; a trailing group of 1 or 2
bytes is padded with `=`. -/
def base64Encode : List Nat → List Char
  | [] => []
  | [b0] => [b64Char (b0 / 4), b64Char (b0 % 4 * 16), '=', '=']
  | [b0, b1] => [b64Char (b0 / 4), b64Char (b0 % 4 * 16 + b1 / 16), b64Char (b1 % 16 * 4), '=']
  | b0 :: b1 :: b2 :: rest =>
      b64Char (b0 / 4) :: b64Char (b0 % 4 * 16 + b1 / 16) ::
        b64Char (b1 % 16 * 4 + b2 / 64) :: b64Char (b2 % 64) :: base64Encode rest

/-- One element of `output.images` as `_serialize_images` sees it:
its source url, descriptive strings, and whether it is a `GeneratedImage`
(the `isinstance` test on line 122). -/
structure SourceImage where
  url : String
  title : String
  alt : String
  generated : Bool
deriving DecidableEq, Repr

/-- service.py lines 120-123: for a `GeneratedImage` whose url does not
already end in `"=s2048"`, append the fixed high-resolution size suffix. -/
def effectiveUrl (img : SourceImage) : String :=
  if img.generated ∧ ¬ ("=s2048".toList <:+ img.url.toList) then img.url ++ "=s2048"
  else img.url

/-- Result of `_fetch_bytes(url)`: the response body and the
`content-type` header (service.py lines 71-76). -/
structure FetchResult where
  content : List Nat
  mime : String
deriving DecidableEq, Repr

/-- The `ImagePayload` built by `_serialize` (models.py lines 20-26):
`data` is the ascii decoding of the base64-encoded bytes; `url` stays
unset until the `_send` URL pass. -/
structure OutPayload where
  title : String
  alt : String
  mime_type : String
  data : String
  path : String
  url : Option String
deriving DecidableEq, Repr

/-- The body of `_serialize(image)` (service.py lines 119-139) for the
`i`-th image: fetch the effective url's bytes and mime, infer the
extension (`mimetypes.guess_extension(mime) or ".bin"`, the table as the
oracle `guessExt`), synthesize the filename (the timestamp + random token
is the oracle `freshName i`, per-coroutine), write the bytes to
`output_dir / filename` — returned as the write event — and build the
payload with the base64-encoded bytes and that path. -/
def serializeOne (fetch : String → FetchResult) (guessExt : String → Option String)
    (freshName : Nat → String) (outputDir : String) (i : Nat) (img : SourceImage) :
    OutPayload × (String × List Nat) :=
  let fr := fetch (effectiveUrl img)
  let ext := (guessExt fr.mime).getD ".bin"
  let path := outputDir ++ "/" ++ (freshName i ++ ext)
  (⟨img.title, img.alt, fr.mime, ⟨base64Encode fr.content⟩, path, none⟩, (path, fr.content))

/-- `asyncio.gather(*(_serialize(image) for image in images))` starting at
index `i`: gather returns results in argument order, so the pair list is
indexed like `images`. -/
def serializeFrom (fetch : String → FetchResult) (guessExt : String → Option String)
    (freshName : Nat → String) (outputDir : String) :
    Nat → List SourceImage → List (OutPayload × (String × List Nat))
  | _, [] => []
  | i, img :: rest =>
      serializeOne fetch guessExt freshName outputDir i img ::
        serializeFrom fetch guessExt freshName outputDir (i + 1) rest

/-- service.py `_serialize_images`: `[]` for no images (skipping even the
`mkdir`), else the gathered payloads; the second component collects the
`file_path.write_bytes(content)` events. -/
def serialize_images (images : List SourceImage) (fetch : String → FetchResult)
    (guessExt : String → Option String) (freshName : Nat → String) (outputDir : String) :
    List OutPayload × List (String × List Nat) :=
  if images.isEmpty then ([], [])
  else
    let pairs := serializeFrom fetch guessExt freshName outputDir 0 images
    (pairs.map Prod.fst, pairs.map Prod.snd)

theorem serializeFrom_getElem (fetch : String → FetchResult) (guessExt : String → Option String)
    (freshName : Nat → String) (outputDir : String) :
    ∀ (l : List SourceImage) (i j : Nat),
      (serializeFrom fetch guessExt freshName outputDir i l)[j]? =
        (l[j]?).map (fun img => serializeOne fetch guessExt freshName outputDir (i + j) img) := by
  intro l
  induction l with
  | nil => intro i j; simp [serializeFrom]
  | cons img rest ih =>
    intro i j
    cases j with
    | zero => simp [serializeFrom]
    | succ j =>
      have harith : i + (j + 1) = (i + 1) + j := by omega
      simp only [serializeFrom, List.getElem?_cons_succ, ih (i + 1) j, harith]

/-- C10: output persistence returns exactly one image payload per input
image in input order; the `j`-th write event stores, at the `j`-th
payload's `path`, exactly the bytes fetched for the `j`-th image; the
`j`-th payload's `data` is the base64 encoding of exactly those bytes; and
the payload's descriptive metadata (title, alt, mime type) comes from the
`j`-th image and its fetch response. -/
theorem serialize_images_c10 (images : List SourceImage) (fetch : String → FetchResult)
    (guessExt : String → Option String) (freshName : Nat → String) (outputDir : String) :
    (serialize_images images fetch guessExt freshName outputDir).1.length = images.length ∧
    (serialize_images images fetch guessExt freshName outputDir).2.length = images.length ∧
    (∀ j : Nat, (serialize_images images fetch guessExt freshName outputDir).2[j]? =
      ((serialize_images images fetch guessExt freshName outputDir).1[j]?).bind (fun p : OutPayload =>
        (images[j]?).map (fun img => (p.path, (fetch (effectiveUrl img)).content)))) ∧
    (∀ j : Nat, ((serialize_images images fetch guessExt freshName outputDir).1[j]?).map
        OutPayload.data =
      (images[j]?).map (fun img =>
        (⟨base64Encode (fetch (effectiveUrl img)).content⟩ : String))) ∧
    (∀ j : Nat, ((serialize_images images fetch guessExt freshName outputDir).1[j]?).map
        (fun p : OutPayload => (p.title, p.alt, p.mime_type)) =
      (images[j]?).map (fun img => (img.title, img.alt, (fetch (effectiveUrl img)).mime))) := by
  cases images with
  | nil => exact ⟨rfl, rfl, fun j => by simp [serialize_images], fun j => by simp [serialize_images],
      fun j => by simp [serialize_images]⟩
  | cons img0 rest =>
    have hne : ((img0 :: rest : List SourceImage).isEmpty) = false := rfl
    have hlen : ∀ (l : List SourceImage) (i : Nat),
        (serializeFrom fetch guessExt freshName outputDir i l).length = l.length := by
      intro l
      induction l with
      | nil => intro i; rfl
      | cons x xs ih => intro i; simp [serializeFrom, ih (i + 1)]
    refine ⟨?_, ?_, ?_, ?_, ?_⟩
    · simp [serialize_images, hne, hlen]
    · simp [serialize_images, hne, hlen]
    · intro j
      simp only [serialize_images, hne, Bool.false_eq_true, if_false, List.getElem?_map,
        serializeFrom_getElem fetch guessExt freshName outputDir (img0 :: rest) 0 j]
      cases (img0 :: rest : List SourceImage)[j]? with
      | none => rfl
      | some imgj => rfl
    · intro j
      simp only [serialize_images, hne, Bool.false_eq_true, if_false, List.getElem?_map,
        serializeFrom_getElem fetch guessExt freshName outputDir (img0 :: rest) 0 j]
      cases (img0 :: rest : List SourceImage)[j]? with
      | none => rfl
      | some imgj => rfl
    · intro j
      simp only [serialize_images, hne, Bool.false_eq_true, if_false, List.getElem?_map,
        serializeFrom_getElem fetch guessExt freshName outputDir (img0 :: rest) 0 j]
      cases (img0 :: rest : List SourceImage)[j]? with
      | none => rfl
      | some imgj => rfl

/-! ## Input fetch: `_files_from_urls` (service.py, lines 79-105)

The collision loop compares decimal-suffixed candidate names, so we first
establish that `Nat.repr` (the decimal numeral printer behind Python's
f-string interpolation of the counter) is injective. -/

theorem toDigitsCore_eq_digits (b : Nat) (hb : 1 < b) :
    ∀ (fuel n : Nat) (acc : List Char), n < fuel →
      Nat.toDigitsCore b fuel n acc =
        (if n = 0 then [Nat.digitChar 0]
         else ((Nat.digits b n).map Nat.digitChar).reverse) ++ acc := by
  intro fuel
  induction fuel with
  | zero => intro n acc hn; exact absurd hn (Nat.not_lt_zero n)
  | succ f ih =>
    intro n acc hn
    by_cases h0 : n = 0
    · subst h0
      simp [Nat.toDigitsCore, Nat.zero_div, Nat.zero_mod]
    · have hpos : 0 < n := Nat.pos_of_ne_zero h0
      by_cases hdiv : n / b = 0
      · simp only [Nat.toDigitsCore, hdiv, if_pos, if_neg h0]
        rw [Nat.digits_def' hb hpos, hdiv, Nat.digits_zero]
        rfl
      · have hnb : n / b < n := Nat.div_lt_self hpos hb
        have hf : n / b < f := by omega
        simp only [Nat.toDigitsCore, hdiv, if_neg, if_false]
        rw [ih (n / b) (Nat.digitChar (n % b) :: acc) hf, if_neg hdiv, if_neg h0,
          Nat.digits_def' hb hpos, List.map_cons, List.reverse_cons, List.append_assoc]
        rfl

theorem toDigits_eq_digits (b n : Nat) (hb : 1 < b) :
    Nat.toDigits b n =
      if n = 0 then [Nat.digitChar 0]
      else ((Nat.digits b n).map Nat.digitChar).reverse := by
  have := toDigitsCore_eq_digits b hb (n + 1) n [] (Nat.lt_succ_self n)
  simpa [Nat.toDigits] using this

theorem digitChar_inj_fin : ∀ d e : Fin 10, Nat.digitChar d.val = Nat.digitChar e.val → d = e := by
  decide

theorem map_digitChar_inj :
    ∀ (l1 l2 : List Nat), (∀ x ∈ l1, x < 10) → (∀ x ∈ l2, x < 10) →
      l1.map Nat.digitChar = l2.map Nat.digitChar → l1 = l2 := by
  intro l1
  induction l1 with
  | nil =>
    intro l2 _ _ h
    cases l2 with
    | nil => rfl
    | cons y ys => exact absurd h (by simp)
  | cons x xs ih =>
    intro l2 h1 h2 h
    cases l2 with
    | nil => exact absurd h (by simp)
    | cons y ys =>
      simp only [List.map_cons, List.cons.injEq] at h
      obtain ⟨hxy, hrest⟩ := h
      have hx : x < 10 := h1 x (List.mem_cons_self x xs)
      have hy : y < 10 := h2 y (List.mem_cons_self y ys)
      have heq : (⟨x, hx⟩ : Fin 10) = ⟨y, hy⟩ := digitChar_inj_fin ⟨x, hx⟩ ⟨y, hy⟩ hxy
      have hxy' : x = y := congrArg Fin.val heq
      rw [hxy', ih ys (fun z hz => h1 z (List.mem_cons_of_mem x hz))
        (fun z hz => h2 z (List.mem_cons_of_mem y hz)) hrest]

theorem digits_single_zero_impossible (n : Nat) (hn : n ≠ 0)
    (h : Nat.digits 10 n = [0]) : False := by
  have ho := Nat.ofDigits_digits 10 n
  rw [h] at ho
  simp [Nat.ofDigits] at ho
  exact hn ho.symm

theorem natRepr_injective : ∀ m n : Nat, Nat.repr m = Nat.repr n → m = n := by
  intro m n h
  have hd : Nat.toDigits 10 m = Nat.toDigits 10 n := by
    have h2 := congrArg String.data h
    simpa [Nat.repr, List.asString] using h2
  rw [toDigits_eq_digits 10 m (by omega), toDigits_eq_digits 10 n (by omega)] at hd
  by_cases hm : m = 0 <;> by_cases hn : n = 0
  · omega
  · exfalso
    rw [if_pos hm, if_neg hn] at hd
    have hlen : (Nat.digits 10 n).length = 1 := by
      have := congrArg List.length hd
      simpa using this.symm
    obtain ⟨d, hdeq⟩ := List.length_eq_one.mp hlen
    rw [hdeq] at hd
    simp only [List.map_cons, List.map_nil, List.reverse_cons, List.reverse_nil,
      List.nil_append, List.cons.injEq, and_true] at hd
    have hmem : d ∈ Nat.digits 10 n := by rw [hdeq]; exact List.mem_singleton_self d
    have hdlt : d < 10 := Nat.digits_lt_base (by omega) hmem
    have heq : (⟨0, by omega⟩ : Fin 10) = ⟨d, hdlt⟩ := digitChar_inj_fin _ _ hd
    have hd0 : d = 0 := (congrArg Fin.val heq).symm
    exact digits_single_zero_impossible n hn (hd0 ▸ hdeq)
  · exfalso
    rw [if_neg hm, if_pos hn] at hd
    have hlen : (Nat.digits 10 m).length = 1 := by
      have := congrArg List.length hd
      simpa using this
    obtain ⟨d, hdeq⟩ := List.length_eq_one.mp hlen
    rw [hdeq] at hd
    simp only [List.map_cons, List.map_nil, List.reverse_cons, List.reverse_nil,
      List.nil_append, List.cons.injEq, and_true] at hd
    have hmem : d ∈ Nat.digits 10 m := by rw [hdeq]; exact List.mem_singleton_self d
    have hdlt : d < 10 := Nat.digits_lt_base (by omega) hmem
    have heq : (⟨d, hdlt⟩ : Fin 10) = ⟨0, by omega⟩ := digitChar_inj_fin _ _ hd
    have hd0 : d = 0 := congrArg Fin.val heq
    exact digits_single_zero_impossible m hm (hd0 ▸ hdeq)
  · rw [if_neg hm, if_neg hn] at hd
    have hrev := congrArg List.reverse hd
    simp only [List.reverse_reverse] at hrev
    have hdig := map_digitChar_inj (Nat.digits 10 m) (Nat.digits 10 n)
      (fun x hx => Nat.digits_lt_base (by omega) hx)
      (fun x hx => Nat.digits_lt_base (by omega) hx) hrev
    have h1 := Nat.ofDigits_digits 10 m
    have h2 := Nat.ofDigits_digits 10 n
    rw [hdig] at h1
    omega

/-- Split a character list on a separator character, keeping empty groups
(how `pathlib` and URL paths segment on "/"). -/
def splitOnChar (c : Char) : List Char → List (List Char)
  | [] => [[]]
  | x :: xs =>
      match splitOnChar c xs with
      | [] => [[]]
      | g :: gs => if x = c then [] :: g :: gs else (x :: g) :: gs

/-- service.py line 91: `Path(url.split("?")[0]).name or "image"`.
`url.split("?")[0]` is the prefix before the first "?"; `Path(...).name`
is modelled as the last nonempty "/"-separated component (faithful for
URL-like strings without "." or ".." path segments, which `PurePath`
would normalize away); the `or "image"` fallback kicks in when that
component is empty. -/
def deriveFilename (url : String) : List Char :=
  let beforeQ := url.toList.takeWhile (fun c => c ≠ '?')
  let name := ((splitOnChar '/' beforeQ).filter (fun g => g ≠ [])).getLastD []
  if name = [] then "image".toList else name

/-- The index of the last '.' in a filename (`name.rfind('.')`,
`none` when absent). -/
def lastDotIdx (cs : List Char) : Option Nat :=
  ((List.range cs.length).filter (fun i => cs.getD i ' ' = '.')).getLast?

/-- `PurePath.stem` and `PurePath.suffix` of a bare filename: split at the
last '.' when its index `i` satisfies `0 < i < len(name) - 1`, otherwise
the suffix is empty. -/
def splitExt (cs : List Char) : List Char × List Char :=
  match lastDotIdx cs with
  | some i => if 0 < i ∧ i + 1 < cs.length then (cs.take i, cs.drop i) else (cs, [])
  | none => (cs, [])

/-- service.py line 96: the collision candidate for counter value `k`,
`f"{Path(filename).stem}_{suffix}{Path(filename).suffix or '.bin'}"`
(with `suffix` the counter and the extension already defaulted). -/
def candidateName (stem ext : List Char) (k : Nat) : List Char :=
  stem ++ '_' :: ((Nat.repr k).toList ++ ext)

/-- The `while target.exists()` loop of service.py lines 93-96 trying
counter values `k, k+1, ...` against the scratch directory contents
`existing`.  `fuel` bounds the recursion; `existing.length + 1` always
suffices (`resolveLoop_not_mem_of_exists` + `candidate_free_exists`
below), matching the Python loop, which terminates because candidate
names are pairwise distinct and the directory is finite. -/
def resolveLoop (existing : List (List Char)) (stem ext : List Char) : Nat → Nat → List Char
  | k, 0 => candidateName stem ext k
  | k, fuel + 1 =>
      if candidateName stem ext k ∈ existing then resolveLoop existing stem ext (k + 1) fuel
      else candidateName stem ext k

/-- service.py lines 91-96: the filename actually used for one download —
the derived filename when no file of that name exists yet, else the first
collision candidate (numeric counter before the extension, `".bin"` when
the filename has no extension) not present in the directory, starting at
counter 1. -/
def resolveName (existing : List (List Char)) (filename : List Char) : List Char :=
  if filename ∈ existing then
    resolveLoop existing (splitExt filename).1
      (if (splitExt filename).2 = [] then ".bin".toList else (splitExt filename).2)
      1 (existing.length + 1)
  else filename

theorem candidateName_inj (stem ext : List Char) (m n : Nat)
    (h : candidateName stem ext m = candidateName stem ext n) : m = n := by
  unfold candidateName at h
  have h1 := List.append_cancel_left h
  have h2 : (Nat.repr m).toList ++ ext = (Nat.repr n).toList ++ ext := by
    injection h1
  have h3 : (Nat.repr m).toList = (Nat.repr n).toList := List.append_cancel_right h2
  exact natRepr_injective m n (String.ext h3)

theorem resolveLoop_not_mem_of_exists (existing : List (List Char)) (stem ext : List Char) :
    ∀ (fuel k : Nat), (∃ j, j < fuel ∧ candidateName stem ext (k + j) ∉ existing) →
      resolveLoop existing stem ext k fuel ∉ existing := by
  intro fuel
  induction fuel with
  | zero =>
    intro k ⟨j, hj, _⟩
    exact absurd hj (Nat.not_lt_zero j)
  | succ f ih =>
    intro k ⟨j, hj, hfree⟩
    by_cases hk : candidateName stem ext k ∈ existing
    · have hj0 : j ≠ 0 := by
        intro h0
        rw [h0, Nat.add_zero] at hfree
        exact hfree hk
      have hshift : ∃ j', j' < f ∧ candidateName stem ext ((k + 1) + j') ∉ existing := by
        refine ⟨j - 1, by omega, ?_⟩
        have : (k + 1) + (j - 1) = k + j := by omega
        rw [this]
        exact hfree
      simpa [resolveLoop, hk] using ih (k + 1) hshift
    · simp [resolveLoop, hk]

theorem candidate_free_exists (existing : List (List Char)) (stem ext : List Char) (k : Nat) :
    ∃ j, j < existing.length + 1 ∧ candidateName stem ext (k + j) ∉ existing := by
  by_contra hcon
  push_neg at hcon
  have hinj : Set.InjOn (fun j => candidateName stem ext (k + j))
      (Finset.range (existing.length + 1)) := by
    intro a _ b _ hab
    have := candidateName_inj stem ext (k + a) (k + b) hab
    omega
  have hsub : (Finset.range (existing.length + 1)).image
      (fun j => candidateName stem ext (k + j)) ⊆ existing.toFinset := by
    intro x hx
    obtain ⟨j, hj, rfl⟩ := Finset.mem_image.mp hx
    exact List.mem_toFinset.mpr (hcon j (Finset.mem_range.mp hj))
  have hcard : ((Finset.range (existing.length + 1)).image
      (fun j => candidateName stem ext (k + j))).card = existing.length + 1 := by
    rw [Finset.card_image_of_injOn hinj, Finset.card_range]
  have h1 := Finset.card_le_card hsub
  have h2 := List.toFinset_card_le existing
  omega

theorem resolveName_not_mem (existing : List (List Char)) (filename : List Char) :
    resolveName existing filename ∉ existing := by
  unfold resolveName
  by_cases hf : filename ∈ existing
  · rw [if_pos hf]
    apply resolveLoop_not_mem_of_exists
    exact candidate_free_exists existing (splitExt filename).1
      (if (splitExt filename).2 = [] then ".bin".toList else (splitExt filename).2) 1
  · rw [if_neg hf]
    exact hf

/-- Outcome of `client.get(url)` + `response.raise_for_status()` for the
input URL at a given index: either the body bytes, or an `HTTPError`. -/
inductive DownloadOutcome where
  | ok (content : List Nat)
  | httpError (message : String)
deriving DecidableEq, Repr

def isHttpError : DownloadOutcome → Bool
  | .httpError _ => true
  | .ok _ => false

def downloadContent : DownloadOutcome → List Nat
  | .ok c => c
  | .httpError _ => []

/-- The `asyncio.gather` over the `_download(url)` coroutines of
`_files_from_urls`, modelled sequentially in completion order `order` (a
permutation of the indices): after its awaited GET returns, each coroutine
derives its filename, resolves collisions against the files already
written (`target.exists()`) and writes its bytes, all without a suspension
point — atomically on the event loop.  Returns `(index, resolved name)`
pairs in completion order. -/
def assignLoop (urls : List String) : List Nat → List (List Char) → List (Nat × List Char)
  | [], _ => []
  | i :: rest, existing =>
      let name := resolveName existing (deriveFilename (urls.getD i ""))
      (i, name) :: assignLoop urls rest (existing ++ [name])

/-- service.py `_files_from_urls` for nonempty `urls`: if any single GET
fails, the gather re-raises the `HTTPError` and the whole batch fails with
no partial result; otherwise it yields `str(target)` paths ordered like
`urls` (gather returns results in argument order), each
`tmpDir ++ "/" ++ name`, along with the `target.write_bytes(...)` events
`(path, bytes)` in completion order. -/
def files_from_urls (tmpDir : List Char) (urls : List String)
    (download : Nat → DownloadOutcome) (order : List Nat) :
    Except String (List (List Char) × List (List Char × List Nat)) :=
  if (List.range urls.length).any (fun i => isHttpError (download i)) then
    Except.error "HTTPError"
  else
    let assigns := assignLoop urls order []
    Except.ok
      ((List.range urls.length).map (fun i => tmpDir ++ '/' :: (lookupId assigns i).getD []),
        assigns.map (fun p => (tmpDir ++ '/' :: p.2, downloadContent (download p.1))))

theorem assignLoop_fst (urls : List String) :
    ∀ (order : List Nat) (existing : List (List Char)),
      (assignLoop urls order existing).map Prod.fst = order := by
  intro order
  induction order with
  | nil => intro ex; rfl
  | cons i rest ih => intro ex; simp [assignLoop, ih]

theorem assignLoop_snd_fresh (urls : List String) :
    ∀ (order : List Nat) (existing : List (List Char)),
      ((assignLoop urls order existing).map Prod.snd).Nodup ∧
      ∀ nm ∈ (assignLoop urls order existing).map Prod.snd, nm ∉ existing := by
  intro order
  induction order with
  | nil =>
    intro ex
    exact ⟨List.nodup_nil, fun nm hnm => absurd hnm (List.not_mem_nil nm)⟩
  | cons i rest ih =>
    intro ex
    obtain ⟨hnd, hdisj⟩ :=
      ih (ex ++ [resolveName ex (deriveFilename (urls.getD i ""))])
    constructor
    · rw [show (assignLoop urls (i :: rest) ex).map Prod.snd =
          resolveName ex (deriveFilename (urls.getD i "")) ::
            (assignLoop urls rest
              (ex ++ [resolveName ex (deriveFilename (urls.getD i ""))])).map Prod.snd
        from rfl, List.nodup_cons]
      refine ⟨fun hmem => ?_, hnd⟩
      exact (hdisj _ hmem) (by simp)
    · intro nm hnm
      rw [show (assignLoop urls (i :: rest) ex).map Prod.snd =
          resolveName ex (deriveFilename (urls.getD i "")) ::
            (assignLoop urls rest
              (ex ++ [resolveName ex (deriveFilename (urls.getD i ""))])).map Prod.snd
        from rfl] at hnm
      cases List.mem_cons.mp hnm with
      | inl h => rw [h]; exact resolveName_not_mem ex _
      | inr h =>
        intro hex
        exact (hdisj nm h) (List.mem_append_left _ hex)

theorem lookupId_isSome_of_mem {κ β : Type} [DecidableEq κ] (l : List (κ × β)) (i : κ)
    (h : i ∈ l.map Prod.fst) : ∃ b, lookupId l i = some b := by
  induction l with
  | nil => simp at h
  | cons p rest ih =>
    by_cases hp : p.1 = i
    · exact ⟨p.2, by simp [lookupId, hp]⟩
    · simp only [List.map_cons, List.mem_cons] at h
      cases h with
      | inl h => exact absurd h.symm hp
      | inr h =>
        obtain ⟨b, hb⟩ := ih h
        exact ⟨b, by simp [lookupId, hp, hb]⟩

theorem snd_ne_of_nodup {κ β : Type} [DecidableEq κ] :
    ∀ (l : List (κ × β)), (l.map Prod.snd).Nodup →
      ∀ (i j : κ) (a b : β), (i, a) ∈ l → (j, b) ∈ l → i ≠ j → a ≠ b := by
  intro l
  induction l with
  | nil =>
    intro _ i j a b hi _ _
    exact absurd hi (List.not_mem_nil _)
  | cons p rest ih =>
    intro hnd i j a b hi hj hij hab
    subst hab
    rw [List.map_cons, List.nodup_cons] at hnd
    obtain ⟨hnotin, hnd'⟩ := hnd
    cases List.mem_cons.mp hi with
    | inl h1 =>
      cases List.mem_cons.mp hj with
      | inl h2 =>
        exact hij (congrArg Prod.fst (h1.trans h2.symm))
      | inr h2 =>
        have hmm : a ∈ rest.map Prod.snd := List.mem_map.mpr ⟨(j, a), h2, rfl⟩
        have hpa : p.2 = a := by rw [← h1]
        exact hnotin (by rw [hpa]; exact hmm)
    | inr h1 =>
      cases List.mem_cons.mp hj with
      | inl h2 =>
        have hmm : a ∈ rest.map Prod.snd := List.mem_map.mpr ⟨(i, a), h1, rfl⟩
        have hpa : p.2 = a := by rw [← h2]
        exact hnotin (by rw [hpa]; exact hmm)
      | inr h2 =>
        exact ih hnd' i j a a h1 h2 hij rfl

/-- C5: for every ordered list of N input URLs and every completion order
of the concurrent downloads: if every download succeeds, the input fetch
returns exactly N local file paths, pairwise distinct even when URLs
derive identical filenames, with the i-th path holding exactly the bytes
downloaded for the i-th URL (order-preserving); if any single download
fails, the whole batch fails with a transport error and no partial result
is returned. -/
theorem files_from_urls_c5 (tmpDir : List Char) (urls : List String)
    (download : Nat → DownloadOutcome) (order : List Nat)
    (hperm : order.Perm (List.range urls.length)) :
    ((∀ i ∈ List.range urls.length, isHttpError (download i) = false) →
      ∃ files writes,
        files_from_urls tmpDir urls download order = Except.ok (files, writes) ∧
        files.length = urls.length ∧
        files.Nodup ∧
        (∀ i ∈ List.range urls.length, ∃ p,
          files[i]? = some p ∧ (p, downloadContent (download i)) ∈ writes)) ∧
    ((∃ i ∈ List.range urls.length, isHttpError (download i) = true) →
      files_from_urls tmpDir urls download order = Except.error "HTTPError") := by
  have hfst := assignLoop_fst urls order []
  have hsnd := (assignLoop_snd_fresh urls order []).1
  have hlook : ∀ i ∈ List.range urls.length,
      ∃ nm, lookupId (assignLoop urls order []) i = some nm := by
    intro i hi
    exact lookupId_isSome_of_mem _ i (by rw [hfst]; exact hperm.mem_iff.mpr hi)
  constructor
  · intro hok
    have hany : (List.range urls.length).any (fun i => isHttpError (download i)) = false := by
      rw [List.any_eq_false]
      intro i hi
      rw [hok i hi]
      exact Bool.false_ne_true
    have hres : files_from_urls tmpDir urls download order =
        Except.ok
          ((List.range urls.length).map
            (fun i => tmpDir ++ '/' :: (lookupId (assignLoop urls order []) i).getD []),
           (assignLoop urls order []).map
            (fun p => (tmpDir ++ '/' :: p.2, downloadContent (download p.1)))) := by
      unfold files_from_urls
      rw [hany]
      rfl
    refine ⟨_, _, hres, by simp, ?_, ?_⟩
    · refine List.Nodup.map_on ?_ (List.nodup_range urls.length)
      intro i hi j hj hf
      by_contra hij
      obtain ⟨nmi, hnmi⟩ := hlook i hi
      obtain ⟨nmj, hnmj⟩ := hlook j hj
      rw [hnmi, hnmj] at hf
      have hcons := List.append_cancel_left hf
      have hnm : nmi = nmj := by injection hcons
      exact snd_ne_of_nodup (assignLoop urls order []) hsnd i j nmi nmj
        (lookupId_mem _ i nmi hnmi) (lookupId_mem _ j nmj hnmj) hij hnm
    · intro i hi
      obtain ⟨nm, hnm⟩ := hlook i hi
      refine ⟨tmpDir ++ '/' :: nm, ?_, ?_⟩
      · rw [List.getElem?_map, List.getElem?_range (List.mem_range.mp hi)]
        simp [hnm]
      · exact List.mem_map.mpr ⟨(i, nm), lookupId_mem _ i nm hnm, rfl⟩
  · intro hbad
    have hany : (List.range urls.length).any (fun i => isHttpError (download i)) = true := by
      rw [List.any_eq_true]
      exact hbad
    unfold files_from_urls
    rw [hany]
    rfl

/-- Witness for C5 at concrete inputs: three URLs, two of which derive the
same filename `a.png`, downloads completing in order `[2, 0, 1]`, all
succeeding — three distinct order-preserving paths come back; and the same
batch with one failing download aborts as a whole. -/
theorem files_from_urls_c5_witness :
    (∃ files writes,
      files_from_urls "/tmp/t".toList
          ["http://h/a.png", "http://h/b.png?x=1", "http://h/sub/a.png"]
          (fun i => if i = 9 then DownloadOutcome.httpError "boom"
            else DownloadOutcome.ok [i, i + 1])
          [2, 0, 1] =
        Except.ok (files, writes) ∧
      files.length = 3 ∧
      files.Nodup ∧
      (∀ i ∈ List.range 3, ∃ p, files[i]? = some p ∧
        (p, downloadContent (if i = 9 then DownloadOutcome.httpError "boom"
          else DownloadOutcome.ok [i, i + 1])) ∈ writes)) ∧
    files_from_urls "/tmp/t".toList
        ["http://h/a.png", "http://h/b.png?x=1", "http://h/sub/a.png"]
        (fun i => if i = 1 then DownloadOutcome.httpError "boom"
          else DownloadOutcome.ok [i, i + 1])
        [2, 0, 1] =
      Except.error "HTTPError" := by
  constructor
  · exact (files_from_urls_c5 "/tmp/t".toList
      ["http://h/a.png", "http://h/b.png?x=1", "http://h/sub/a.png"]
      (fun i => if i = 9 then DownloadOutcome.httpError "boom"
        else DownloadOutcome.ok [i, i + 1])
      [2, 0, 1] (by decide)).1 (by decide)
  · exact (files_from_urls_c5 "/tmp/t".toList
      ["http://h/a.png", "http://h/b.png?x=1", "http://h/sub/a.png"]
      (fun i => if i = 1 then DownloadOutcome.httpError "boom"
        else DownloadOutcome.ok [i, i + 1])
      [2, 0, 1] (by decide)).2 ⟨1, by decide, by decide⟩
